import Mathlib

/-!
Verification of the `bob` build-tool core (src/bob.hpp) against its
natural-language specification.

The C++ implementation is shallowly embedded: pure logic (argument lists,
placeholder substitution, PATH splitting, staleness checks, the scheduler's
slot bookkeeping) is translated directly into executable Lean functions.
Interaction with the operating system is made explicit:

* A filesystem is a pair of total functions `fexists` / `mtime` over paths
  (`FS`).  `fs::last_write_time` on a missing file raises, which is modelled
  as `Except.error`; calls to `PANIC`, failed `assert`s and `exit(EXIT_FAILURE)`
  are likewise modelled as `Except.error` (the process dies, no value is
  produced).
* Child processes are abstracted by two oracles passed to the scheduler:
  `oracle tick` answers the `waitpid(..., WNOHANG)` question "has the child
  polled at instant `tick` terminated?", and `env i` is the `WEXITSTATUS`
  eventually reported for the `i`-th submitted command.  This models every
  run in which all commands spawn successfully and terminate normally (on
  any other run the C++ process aborts and `run()` never returns).
* Loops whose termination depends on child processes take explicit fuel and
  return `none` when the fuel runs out.
* Two ghost instrumentations that do not exist in the C++ are added to state
  facts *about* the run: `dispatched` records the submission indices passed
  to `run_async` in order, and the scheduler returns the list of slot-array
  snapshots after every single slot operation (`snaps`), one per "instant".
-/

namespace Bob

/-! ### Command and command handle (bob.hpp:234-433, 944-1101) -/

/-- One in-flight child process: completion flag, exit code (valid once
`done`), and the `silent` flag copied from the originating command.
The pid and pty file descriptor are not modelled. -/
structure CmdFuture where
  done : Bool
  exit_code : Int
  silent : Bool := false
  deriving Repr, DecidableEq

/-- A command: argument vector, capture/silence flags, accumulated output,
working directory (bob.hpp:287-433). -/
structure Cmd where
  parts : List String
  capture_output : Bool := false
  silent : Bool := false
  output_str : String := ""
  root : String := "."
  deriving Repr, DecidableEq

/-- Model of `Cmd::run_async` (bob.hpp:1021-1074).  The guard at bob.hpp:1021-1024
panics (`Except.error`) before any `forkpty`, so no child is spawned on the
error path.  On success the returned future starts not-done with the
sentinel exit code `-1` and the command's `silent` flag. -/
def Cmd.run_async (c : Cmd) : Except String CmdFuture :=
  match c.parts with
  | [] => .error "No command to run."
  | p :: _ =>
      if p = "" then .error "No command to run."
      else .ok { done := false, exit_code := -1, silent := c.silent }

/-- Model of `CmdFuture::poll` (bob.hpp:954-978), output side.  `avail` is the byte
string currently readable from the pty (`read_fd`); `exited = some s` means
`waitpid(WNOHANG)` reports a normal exit with status `s`, `none` means the
child is still running.  When an `output` buffer is passed, freshly read
bytes are appended to it unconditionally.  Returns the updated future, the
updated buffer, and the done flag. -/
def CmdFuture.poll (fut : CmdFuture) (avail : String) (exited : Option Nat)
    (output : Option String) : CmdFuture × Option String × Bool :=
  if fut.done then (fut, output, true)
  else
    let output' := if avail = "" then output else output.map (fun s => s ++ avail)
    match exited with
    | none => (fut, output', false)
    | some status =>
        ({ fut with done := true, exit_code := (status : Int) }, output', true)

/-- Model of `Cmd::poll_future` (bob.hpp:1090-1093).  The C++ body is
`fut.poll(&output_str)`: the address of `output_str` is always passed, and
the `capture_output` field is never consulted, so output accumulates into
`output_str` regardless of the flag. -/
def Cmd.poll_future (c : Cmd) (fut : CmdFuture) (avail : String)
    (exited : Option Nat) : Cmd × CmdFuture × Bool :=
  match fut.poll avail exited (some c.output_str) with
  | (fut', out', d) => ({ c with output_str := out'.getD c.output_str }, fut', d)

/-! ### Rebuild configuration (bob.hpp:88-107, 781-789) -/

/-- Self-rebuild command template: token list with reserved placeholders. -/
structure RebuildConfig where
  parts : List String
  deriving Repr, DecidableEq

/-- The placeholder replaced by the program path (bob.hpp:90). -/
def RebuildConfig.PROGRAM : String := "_PROGRAM_"

/-- The placeholder replaced by the source path (bob.hpp:93). -/
def RebuildConfig.SOURCE : String := "_SOURCE_"

/-- Model of `RebuildConfig::cmd` (bob.hpp:781-789): each template token is pushed
onto a fresh command, substituting the two placeholders. -/
def RebuildConfig.cmd (cfg : RebuildConfig) (source program : String) : Cmd :=
  { parts := cfg.parts.map (fun part =>
      if part = RebuildConfig.PROGRAM then program
      else if part = RebuildConfig.SOURCE then source
      else part) }

/-! ### PATH search (bob.hpp:867-886) -/

/-- Split a character list at every `':'`.  `splitColon cs` is the list of
colon-separated segments of `cs`, in order; a string without `':'` is one
segment, and a trailing `':'` yields a trailing empty segment. -/
def splitColon : List Char → List (List Char)
  | [] => [[]]
  | c :: rest =>
      let r := splitColon rest
      if c = ':' then [] :: r
      else
        match r with
        | [] => [[c]]
        | seg :: segs => (c :: seg) :: segs

/-- The colon-separated segments of a PATH string, mirroring the
`find(':')` / `substr(start, end - start)` arithmetic of `search_path`. -/
def pathSegs (s : String) : List String :=
  (splitColon s.toList).map (fun cs => String.mk cs)

/-- The directory-scanning loop of `search_path`.  The C++ loop repeatedly
takes the substring strictly before the next `':'` (`path_env.substr(start,
end-start)` with `end = find(':')`), so it visits exactly the
colon-separated segments except the one after the last `':'`; when no `':'`
remains (`end == npos`) the loop exits without inspecting the tail.  Here
the segment list is the colon-split of `PATH`; the final segment is never
inspected. -/
def search_path_loop (fexists : String → Bool) (bin_name : String) :
    List String → String
  | [] => ""
  | [_] => ""
  | dir :: rest =>
      let bin := dir ++ "/" ++ bin_name
      if fexists bin then bin else search_path_loop fexists bin_name rest

/-- Model of `search_path` (bob.hpp:867-886): panics when `PATH` is empty, otherwise
runs the scanning loop over the colon-separated segments and returns `""`
when the loop finds nothing. -/
def search_path (fexists : String → Bool) (path_env bin_name : String) :
    Except String String :=
  if path_env = "" then .error "PATH environment variable is not set."
  else .ok (search_path_loop fexists bin_name (pathSegs path_env))

/-! ### Filesystem model and Recipe (bob.hpp:509-524, 767-778, 1258-1312) -/

/-- Abstract filesystem state: existence and modification time per path.
`mtime` is meaningful only where `fexists` holds; the code never reads it
for a missing file without raising (modelled as `Except.error`). -/
structure FS where
  fexists : String → Bool
  mtime : String → Nat

/-- Model of `file_needs_rebuild` (bob.hpp:767-778).  The two `assert`s abort on
empty paths.  A missing output short-circuits to `true` before any
`last_write_time` call; `last_write_time` on a missing *input* raises
`std::filesystem::filesystem_error`, which uncaught terminates the
process — modelled as `Except.error`. -/
def file_needs_rebuild (fsys : FS) (input output : String) : Except String Bool :=
  if output = "" then .error "assertion failed: output path is empty"
  else if input = "" then .error "assertion failed: input path is empty"
  else if fsys.fexists output = false then .ok true
  else if fsys.fexists input = false then
    .error "filesystem error: last_write_time on missing input"
  else .ok (decide (fsys.mtime output < fsys.mtime input))

/-- A recipe: inputs, outputs and a build function.  The build function's
side effects on the filesystem are modelled as an `FS → FS` map. -/
structure Recipe where
  inputs : List String
  outputs : List String
  func : FS → FS

/-- Inner loop of `Recipe::needs_rebuild` (bob.hpp:1263-1267): scan the
outputs for one input, returning at the first stale pair. -/
def needs_rebuild_inner (fsys : FS) (input : String) :
    List String → Except String Bool
  | [] => .ok false
  | output :: rest =>
      match file_needs_rebuild fsys input output with
      | .error e => .error e
      | .ok true => .ok true
      | .ok false => needs_rebuild_inner fsys input rest

/-- Outer loop of `Recipe::needs_rebuild` over the inputs. -/
def needs_rebuild_outer (fsys : FS) (outputs : List String) :
    List String → Except String Bool
  | [] => .ok false
  | input :: rest =>
      match needs_rebuild_inner fsys input outputs with
      | .error e => .error e
      | .ok true => .ok true
      | .ok false => needs_rebuild_outer fsys outputs rest

/-- Model of `Recipe::needs_rebuild` (bob.hpp:1261-1270): all-pairs scan, inputs
outer, outputs inner, early return on the first stale pair. -/
def Recipe.needs_rebuild (r : Recipe) (fsys : FS) : Except String Bool :=
  needs_rebuild_outer fsys r.outputs r.inputs

/-- Model of `Recipe::build` (bob.hpp:1272-1312).  Missing inputs are fatal; if no
rebuild is needed the function returns without calling `func`; otherwise
`func` runs and missing outputs afterwards are fatal.  The returned `Bool`
is ghost instrumentation recording whether `func` was invoked. -/
def Recipe.build (r : Recipe) (fsys : FS) : Except String (FS × Bool) :=
  if (r.inputs.all fsys.fexists) = false then
    .error "Recipe inputs are missing"
  else
    match r.needs_rebuild fsys with
    | .error e => .error e
    | .ok false => .ok (fsys, false)
    | .ok true =>
        let fsys' := r.func fsys
        if (r.outputs.all fsys'.fexists) = false then
          .error "Recipe did not produce expected outputs"
        else .ok (fsys', true)

/-! ### The scheduler (bob.hpp:437-499, 1103-1256)

`CmdRunner` drives `cmds.size()` commands through a fixed array of
`process_count` slots.  Scheduling decisions depend on the commands only
through spawn success and eventual exit status, both abstracted by the
oracles `env` (exit statuses) and `oracle` (per-poll termination answers),
so the state keeps only the *number* of submitted commands. -/

/-- One scheduler slot (bob.hpp:440-444): a future plus the submission
index of the command it runs, `-1` when empty. -/
structure CmdRunnerSlot where
  fut : CmdFuture
  index : Int
  deriving Repr, DecidableEq

/-- A slot as left by `init_slots` (bob.hpp:1156-1162): future marked done,
index `-1`. -/
def CmdRunnerSlot.init : CmdRunnerSlot :=
  { fut := { done := true, exit_code := -1 }, index := -1 }

/-- Model of `CmdRunner` state (bob.hpp:437-467).  `dispatched` is ghost
instrumentation: the submission indices handed to `run_async`, in order. -/
structure CmdRunner where
  cursor : Nat
  cmds_len : Nat
  process_count : Nat
  slots : List CmdRunnerSlot
  exit_codes : List Int
  tick : Nat
  dispatched : List Nat
  deriving Repr, DecidableEq

/-- Model of `CmdRunner(size_t)` (bob.hpp:1164-1170): `assert(process_count > 0)`
makes an explicit zero limit fatal. -/
def CmdRunner.mkWithCount (process_count : Nat) : Except String CmdRunner :=
  if process_count = 0 then
    .error "Process count must be greater than 0"
  else
    .ok { cursor := 0, cmds_len := 0, process_count := process_count,
          slots := List.replicate process_count CmdRunnerSlot.init,
          exit_codes := [], tick := 0, dispatched := [] }

/-- Model of `CmdRunner(vector<Cmd>, size_t)` (bob.hpp:1181-1188): the member
`process_count` and the slot vector are both sized from the parameter in
the initializer list.  The body's `if (process_count == 0) process_count = 1;`
assigns the constructor *parameter*, which shadows the member throughout
the body, so it is dead code in this constructor: after an explicit zero
the member stays 0 over a zero-length slot array.  No assertion fires: an
explicit zero is not fatal here and is not changed to any other value. -/
def CmdRunner.mkCmdsCount (cmds_len process_count : Nat) : Except String CmdRunner :=
  .ok { cursor := 0, cmds_len := cmds_len,
        process_count := process_count,
        slots := List.replicate process_count CmdRunnerSlot.init,
        exit_codes := [], tick := 0, dispatched := [] }

/-- Scheduling view of `CmdFuture::poll` for the future of command `idx`:
an already-done future reports done immediately; otherwise `oracle tick`
answers the `waitpid(WNOHANG)` check and, on termination, the exit code
becomes `env idx` (the child's `WEXITSTATUS`). -/
def pollFut (env : Nat → Nat) (oracle : Nat → Bool) (tick idx : Nat)
    (fut : CmdFuture) : CmdFuture × Bool :=
  if fut.done then (fut, true)
  else if oracle tick then
    ({ fut with done := true, exit_code := (env idx : Int) }, true)
  else (fut, false)

/-- Model of `CmdRunner::set_exit_code` (bob.hpp:1147-1150): record the slot's exit
code at its submission index; no-op for an empty slot. -/
def set_exit_code (exit_codes : List Int) (slot : CmdRunnerSlot) : List Int :=
  if slot.index < 0 then exit_codes
  else exit_codes.set slot.index.toNat slot.fut.exit_code

/-- The future `run_async` hands to a freshly populated slot. -/
def freshFut : CmdFuture := { done := false, exit_code := -1, silent := true }

/-- Accumulator threaded through one `populate_slots` pass. -/
structure PopAcc where
  cursor : Nat
  exit_codes : List Int
  tick : Nat
  dispatched : List Nat
  did_work : Bool
  deriving Repr, DecidableEq

/-- The "slot is ready" tail of the `populate_slots` body
(bob.hpp:1113-1126): record the exit code, then, if unsubmitted commands
remain, start the next command in this slot and advance the cursor. -/
def popReady (N : Nat) (acc : PopAcc) (slot : CmdRunnerSlot) :
    PopAcc × CmdRunnerSlot :=
  let ec := set_exit_code acc.exit_codes slot
  if acc.cursor < N then
    ({ acc with cursor := acc.cursor + 1, exit_codes := ec,
                dispatched := acc.dispatched ++ [acc.cursor], did_work := true },
     { fut := freshFut, index := (acc.cursor : Int) })
  else
    ({ acc with exit_codes := ec }, slot)

/-- One iteration of the `populate_slots` loop (bob.hpp:1105-1127): an
occupied slot is polled first and left untouched when its future is not
done; an empty or finished slot is "ready". -/
def popSlot (N : Nat) (env : Nat → Nat) (oracle : Nat → Bool) (acc : PopAcc)
    (slot : CmdRunnerSlot) : PopAcc × CmdRunnerSlot :=
  if slot.index < 0 then popReady N acc slot
  else if (pollFut env oracle acc.tick slot.index.toNat slot.fut).2 then
    popReady N { acc with tick := acc.tick + 1 }
      { slot with fut := (pollFut env oracle acc.tick slot.index.toNat slot.fut).1 }
  else
    ({ acc with tick := acc.tick + 1 },
     { slot with fut := (pollFut env oracle acc.tick slot.index.toNat slot.fut).1 })

/-- The `populate_slots` loop over the slot array.  `ctx` is the prefix of
already-processed slots; besides the final accumulator and slot array the
function returns the full slot-array snapshot after every single slot
operation (ghost trace, one entry per instant). -/
def popAux (N : Nat) (env : Nat → Nat) (oracle : Nat → Bool) :
    List CmdRunnerSlot → PopAcc → List CmdRunnerSlot →
    PopAcc × List CmdRunnerSlot × List (List CmdRunnerSlot)
  | ctx, acc, [] => (acc, ctx, [])
  | ctx, acc, slot :: rest =>
      let ps := popSlot N env oracle acc slot
      let tail := popAux N env oracle (ctx ++ [ps.2]) ps.1 rest
      (tail.1, tail.2.1, (ctx ++ ps.2 :: rest) :: tail.2.2)

/-- Model of `CmdRunner::populate_slots` (bob.hpp:1103-1129). -/
def CmdRunner.populate_slots (env : Nat → Nat) (oracle : Nat → Bool)
    (st : CmdRunner) : CmdRunner × Bool × List (List CmdRunnerSlot) :=
  let acc : PopAcc :=
    { cursor := st.cursor, exit_codes := st.exit_codes, tick := st.tick,
      dispatched := st.dispatched, did_work := false }
  let res := popAux st.cmds_len env oracle [] acc st.slots
  ({ st with cursor := res.1.cursor, exit_codes := res.1.exit_codes,
             tick := res.1.tick, dispatched := res.1.dispatched,
             slots := res.2.1 },
   res.1.did_work, res.2.2)

/-- Accumulator threaded through one `await_slots` pass. -/
structure AwaitAcc where
  exit_codes : List Int
  tick : Nat
  all_done : Bool
  deriving Repr, DecidableEq

/-- One iteration of the `await_slots` inner loop (bob.hpp:1135-1142):
empty slots are skipped; an occupied slot is polled, its exit code recorded
when done, and `all_done` is and-ed with the poll result. -/
def awaitSlot (env : Nat → Nat) (oracle : Nat → Bool) (acc : AwaitAcc)
    (slot : CmdRunnerSlot) : AwaitAcc × CmdRunnerSlot :=
  if slot.index < 0 then (acc, slot)
  else
    ({ exit_codes :=
         if (pollFut env oracle acc.tick slot.index.toNat slot.fut).2 then
           set_exit_code acc.exit_codes
             { slot with fut := (pollFut env oracle acc.tick slot.index.toNat slot.fut).1 }
         else acc.exit_codes,
       tick := acc.tick + 1,
       all_done := acc.all_done &&
         (pollFut env oracle acc.tick slot.index.toNat slot.fut).2 },
     { slot with fut := (pollFut env oracle acc.tick slot.index.toNat slot.fut).1 })

/-- One full pass of the `await_slots` loop body, with ghost snapshots. -/
def awaitAux (env : Nat → Nat) (oracle : Nat → Bool) :
    List CmdRunnerSlot → AwaitAcc → List CmdRunnerSlot →
    AwaitAcc × List CmdRunnerSlot × List (List CmdRunnerSlot)
  | ctx, acc, [] => (acc, ctx, [])
  | ctx, acc, slot :: rest =>
      let ps := awaitSlot env oracle acc slot
      let tail := awaitAux env oracle (ctx ++ [ps.2]) ps.1 rest
      (tail.1, tail.2.1, (ctx ++ ps.2 :: rest) :: tail.2.2)

/-- Model of `CmdRunner::await_slots` (bob.hpp:1131-1145): repeat full passes until
one reports every occupied slot done.  Fuel bounds the number of passes;
`none` models a run in which some child never terminates within the fuel. -/
def CmdRunner.await_slots (env : Nat → Nat) (oracle : Nat → Bool) :
    Nat → CmdRunner → Option (CmdRunner × List (List CmdRunnerSlot))
  | 0, _ => none
  | fuel + 1, st =>
      let acc : AwaitAcc :=
        { exit_codes := st.exit_codes, tick := st.tick, all_done := true }
      let res := awaitAux env oracle [] acc st.slots
      let st' := { st with exit_codes := res.1.exit_codes, tick := res.1.tick,
                           slots := res.2.1 }
      if res.1.all_done then some (st', res.2.2)
      else
        match CmdRunner.await_slots env oracle fuel st' with
        | none => none
        | some (stF, snaps) => some (stF, res.2.2 ++ snaps)

/-- Model of `CmdRunner::any_waiting` (bob.hpp:1152-1154). -/
def CmdRunner.any_waiting (st : CmdRunner) : Bool :=
  st.cursor < st.cmds_len

/-- The `while (any_waiting())` dispatch loop of `run` (bob.hpp:1222-1225),
with fuel bounding the number of `populate_slots` calls. -/
def CmdRunner.runLoop (env : Nat → Nat) (oracle : Nat → Bool) :
    Nat → CmdRunner → Option (CmdRunner × List (List CmdRunnerSlot))
  | 0, st => if st.any_waiting then none else some (st, [])
  | fuel + 1, st =>
      if st.any_waiting then
        let res := st.populate_slots env oracle
        match CmdRunner.runLoop env oracle fuel res.1 with
        | none => none
        | some (stF, snaps) => some (stF, res.2.2 ++ snaps)
      else some (st, [])

/-- Model of `std::vector::resize(n, v)`: truncate or pad with `v`. -/
def listResize (l : List Int) (n : Nat) (v : Int) : List Int :=
  if n ≤ l.length then l.take n else l ++ List.replicate (n - l.length) v

/-- Model of `CmdRunner::any_failed` (bob.hpp:1234-1239). -/
def CmdRunner.any_failed (st : CmdRunner) : Bool :=
  st.exit_codes.any (fun c => c != 0)

/-- Model of `CmdRunner::all_succeded` (bob.hpp:1230-1232). -/
def CmdRunner.all_succeded (st : CmdRunner) : Bool :=
  !st.any_failed

/-- Model of `CmdRunner::run` (bob.hpp:1218-1228): size the exit-code list with the
`-1` sentinel, reset the cursor, populate once, loop while commands wait,
await the remaining slots, and return whether nothing failed.  Also returns
the ghost snapshot trace of the whole run. -/
def CmdRunner.run (env : Nat → Nat) (oracle : Nat → Bool) (fuel : Nat)
    (st : CmdRunner) : Option (CmdRunner × Bool × List (List CmdRunnerSlot)) :=
  let st1 := { st with exit_codes := listResize st.exit_codes st.cmds_len (-1),
                       cursor := 0 }
  let p := st1.populate_slots env oracle
  match CmdRunner.runLoop env oracle fuel p.1 with
  | none => none
  | some (st2, snaps1) =>
      match CmdRunner.await_slots env oracle fuel st2 with
      | none => none
      | some (st3, snaps2) =>
          some (st3, !st3.any_failed, p.2.2 ++ snaps1 ++ snaps2)

/-- Model of `CmdRunner::capture_output` (bob.hpp:1252-1256): set the flag on every
queued command. -/
def CmdRunner.capture_output (cmds : List Cmd) (capture : Bool) : List Cmd :=
  cmds.map (fun c => { c with capture_output := capture })

/-- A slot holding a handle whose child may still be alive. -/
def slotLive (s : CmdRunnerSlot) : Bool :=
  decide (0 ≤ s.index) && !s.fut.done

/-- Number of live children represented in a slot array. -/
def liveCount (slots : List CmdRunnerSlot) : Nat :=
  (slots.filter slotLive).length

/-! ### Scheduler invariant -/

/-- A well-formed slot: either empty, or it executes an already-dispatched
command and, once its future reports done, the stored exit code is that
command's eventual exit status. -/
def SlotOk (env : Nat → Nat) (cursor : Nat) (s : CmdRunnerSlot) : Prop :=
  ¬s.index < 0 →
    (s.index.toNat < cursor ∧
     (s.fut.done = true → s.fut.exit_code = ((env s.index.toNat : Nat) : Int)))

/-- The loop invariant of `run`: the cursor never passes the queue length,
the exit-code list keeps its size, the dispatch log is exactly the cursor
prefix (each command dispatched exactly once, in order), all slots are
well formed, and every dispatched command is either already recorded at
its own submission index or still live in some slot. -/
structure Inv (N : Nat) (env : Nat → Nat) (cursor : Nat) (ec : List Int)
    (dispatched : List Nat) (slots : List CmdRunnerSlot) : Prop where
  cursor_le : cursor ≤ N
  ec_len : ec.length = N
  disp : dispatched = List.range cursor
  slots_ok : ∀ s ∈ slots, SlotOk env cursor s
  recorded : ∀ i, i < cursor →
    ec[i]? = some ((env i : Nat) : Int) ∨
    ∃ s ∈ slots, s.index = (i : Int) ∧ s.fut.done = false

/-- The invariant read off a full runner state. -/
def StInv (env : Nat → Nat) (st : CmdRunner) : Prop :=
  Inv st.cmds_len env st.cursor st.exit_codes st.dispatched st.slots

/-! ### Concrete data for witnesses -/

/-- Concrete filesystem for the C4 witness: the input exists, the output
does not. -/
def c4w_fs : FS :=
  { fexists := fun p => decide (p = "in"),
    mtime := fun p => if p = "in" then 5 else 0 }

/-- Concrete stale recipe for the C4 witness: the build function creates
the output one tick newer than the input and touches nothing else. -/
def c4w_r : Recipe :=
  { inputs := ["in"], outputs := ["out"],
    func := fun g =>
      { fexists := fun p => if p = "out" then true else g.fexists p,
        mtime := fun p => if p = "out" then g.mtime "in" + 1 else g.mtime p } }

/-- Exit-status oracle for the scheduler witnesses: command `i` exits with
status `i`. -/
def wEnv : Nat → Nat := fun i => i

/-- Poll oracle for the scheduler witnesses: every poll finds the child
terminated. -/
def wOracle : Nat → Bool := fun _ => true

/-- Fresh two-command, one-slot runner for the scheduler witnesses. -/
def w_st0 : CmdRunner :=
  { cursor := 0, cmds_len := 2, process_count := 1,
    slots := [CmdRunnerSlot.init], exit_codes := [], tick := 0,
    dispatched := [] }

/-- The final state of `w_st0.run wEnv wOracle 6`. -/
def w_stF : CmdRunner :=
  { cursor := 2, cmds_len := 2, process_count := 1,
    slots := [{ fut := { done := true, exit_code := 1, silent := true },
                index := 1 }],
    exit_codes := [0, 1], tick := 2, dispatched := [0, 1] }

/-- The snapshot trace of `w_st0.run wEnv wOracle 6`. -/
def w_snaps : List (List CmdRunnerSlot) :=
  [[{ fut := { done := false, exit_code := -1, silent := true }, index := 0 }],
   [{ fut := { done := false, exit_code := -1, silent := true }, index := 1 }],
   [{ fut := { done := true, exit_code := 1, silent := true }, index := 1 }]]

/-! ### Theorems -/

/-- C6: for every command whose argument vector is empty or whose first
argument is the empty string, `run_async` panics with a diagnostic before
any child is spawned (in the model, the spawned-future branch is never
reached); the failure is not surfaced as an exit code. -/
theorem claim_empty_cmd_fatal (c : Cmd)
    (h : c.parts = [] ∨ c.parts.head? = some "") :
    c.run_async = Except.error "No command to run." := by
  rcases hp : c.parts with _ | ⟨p, rest⟩
  · simp [Cmd.run_async, hp]
  · rcases h with h | h
    · simp [hp] at h
    · rw [hp] at h
      simp only [List.head?_cons, Option.some.injEq] at h
      simp [Cmd.run_async, hp, h]

theorem claim_empty_cmd_fatal_witness :
    Cmd.run_async { parts := [] } = Except.error "No command to run." :=
  claim_empty_cmd_fatal { parts := [] } (Or.inl rfl)

/-- C9: `RebuildConfig::cmd` preserves the template's length and order;
every `_PROGRAM_` token becomes the program path, every `_SOURCE_` token
becomes the source path, and every other token passes through unchanged. -/
theorem claim_rebuildconfig_substitution (cfg : RebuildConfig)
    (source program : String) :
    (cfg.cmd source program).parts.length = cfg.parts.length ∧
    ∀ i : Nat, (cfg.cmd source program).parts[i]? =
      (cfg.parts[i]?).map (fun part =>
        if part = "_PROGRAM_" then program
        else if part = "_SOURCE_" then source
        else part) := by
  refine ⟨by simp [RebuildConfig.cmd], fun i => ?_⟩
  simp [RebuildConfig.cmd, RebuildConfig.PROGRAM, RebuildConfig.SOURCE]

/-- The `search_path` loop returns `""` whenever the binary is absent from
every segment it actually visits, which are exactly all segments but the
last. -/
theorem search_path_loop_all_fail (fexists : String → Bool) (bin : String) :
    ∀ l : List String, (∀ d ∈ l.dropLast, fexists (d ++ "/" ++ bin) = false) →
      search_path_loop fexists bin l = "" := by
  intro l
  induction l with
  | nil => intro _; rfl
  | cons d rest ih =>
      intro h
      cases rest with
      | nil => rfl
      | cons e rest' =>
          have hd : fexists (d ++ "/" ++ bin) = false := by
            apply h
            simp [List.dropLast_cons₂]
          have ht := ih (fun x hx => h x (by simp [List.dropLast_cons₂, hx]))
          simpa [search_path_loop, hd] using ht

/-- C10: `search_path` never consults the PATH segment after the last
`':'`: whenever the binary exists only in that final segment (including a
colon-free PATH), the search returns the empty path even though the binary
is present on PATH. -/
theorem claim_search_path_skips_last_segment (fexists : String → Bool)
    (path_env bin_name : String) (hne : path_env ≠ "")
    (hlast : fexists ((pathSegs path_env).getLastD "" ++ "/" ++ bin_name) = true)
    (hrest : ∀ d ∈ (pathSegs path_env).dropLast,
        fexists (d ++ "/" ++ bin_name) = false) :
    search_path fexists path_env bin_name = Except.ok "" := by
  clear hlast
  unfold search_path
  rw [if_neg hne, search_path_loop_all_fail fexists bin_name _ hrest]

theorem claim_search_path_skips_last_segment_witness :
    search_path (fun s => decide (s = "/usr/bin/ls")) "/usr/bin" "ls" =
      Except.ok "" :=
  claim_search_path_skips_last_segment (fun s => decide (s = "/usr/bin/ls"))
    "/usr/bin" "ls" (by decide) (by decide) (by decide)

/-- C5 counterexample: constructing a `CmdRunner` through the
`(vector<Cmd>, size_t)` constructor with an explicit concurrency limit of 0
is not fatal: construction succeeds silently, with the stored limit still 0
over an empty slot array (the body's zero fallback assigns the shadowing
constructor parameter, not the member). -/
theorem claim_zero_limit_counterexample :
    CmdRunner.mkCmdsCount 3 0 =
      Except.ok { cursor := 0, cmds_len := 3, process_count := 0, slots := [],
                  exit_codes := [], tick := 0, dispatched := [] } := rfl

/-- C5 amended: only the count-only constructor treats an explicit zero
concurrency limit as a fatal contract violation (assertion); the
`(cmds, count)` constructor accepts 0 without any diagnostic — its
`// Fallback` line writes the shadowing parameter, so the member limit
remains 0 and the slot array is empty. -/
theorem claim_zero_limit_amended :
    CmdRunner.mkWithCount 0 =
      Except.error "Process count must be greater than 0" ∧
    ∀ n : Nat, CmdRunner.mkCmdsCount n 0 =
      Except.ok { cursor := 0, cmds_len := n, process_count := 0, slots := [],
                  exit_codes := [], tick := 0, dispatched := [] } :=
  ⟨rfl, fun _ => rfl⟩

/-- C8: `CmdRunner::capture_output false` does set `capture_output := false`
on every queued command, but polling still accumulates the child's output
into `output_str`, because `Cmd::poll_future` (bob.hpp:1090-1093) always
passes `&output_str` to `CmdFuture::poll` and never consults the flag —
contradicting the doc comment at bob.hpp:404-405. -/
theorem claim_capture_output_ignored :
    CmdRunner.capture_output [{ parts := ["cc", "-c", "a.c"], silent := true }] false =
      [{ parts := ["cc", "-c", "a.c"], capture_output := false, silent := true }] ∧
    (Cmd.poll_future
        { parts := ["cc", "-c", "a.c"], capture_output := false, silent := true }
        { done := false, exit_code := -1, silent := true }
        "hello" none).1.output_str = "hello" := by
  exact ⟨rfl, rfl⟩

/-- Lemma: `file_needs_rebuild` succeeds on nonempty paths when the input exists,
and the result is the missing-or-older test. -/
theorem file_needs_rebuild_ok (fsys : FS) (input output : String)
    (hi : input ≠ "") (ho : output ≠ "") (hex : fsys.fexists input = true) :
    file_needs_rebuild fsys input output =
      .ok (!fsys.fexists output ||
           decide (fsys.mtime output < fsys.mtime input)) := by
  unfold file_needs_rebuild
  rw [if_neg ho, if_neg hi]
  cases h : fsys.fexists output with
  | false => simp [h]
  | true => simp [h, hex]

/-- The inner output scan succeeds under the same conditions and computes
the obvious `any`. -/
theorem needs_rebuild_inner_ok (fsys : FS) (input : String) (hi : input ≠ "")
    (hex : fsys.fexists input = true) :
    ∀ outputs : List String, (∀ o ∈ outputs, o ≠ "") →
      needs_rebuild_inner fsys input outputs =
        .ok (outputs.any (fun o => !fsys.fexists o ||
              decide (fsys.mtime o < fsys.mtime input))) := by
  intro outputs
  induction outputs with
  | nil => intro _; rfl
  | cons o rest ih =>
      intro h
      have ho : o ≠ "" := h o (by simp)
      have hr := ih (fun x hx => h x (by simp [hx]))
      unfold needs_rebuild_inner
      rw [file_needs_rebuild_ok fsys input o hi ho hex]
      cases hb : (!fsys.fexists o || decide (fsys.mtime o < fsys.mtime input)) with
      | true => simp [hb]
      | false => simp [hb, hr]

/-- The outer input scan of `needs_rebuild` succeeds when every input is a
nonempty existing path and every output path is nonempty, and computes the
all-pairs `any`. -/
theorem needs_rebuild_outer_ok (fsys : FS) (outputs : List String)
    (ho : ∀ o ∈ outputs, o ≠ "") :
    ∀ inputs : List String,
      (∀ i ∈ inputs, i ≠ "" ∧ fsys.fexists i = true) →
      needs_rebuild_outer fsys outputs inputs =
        .ok (inputs.any (fun i => outputs.any (fun o => !fsys.fexists o ||
              decide (fsys.mtime o < fsys.mtime i)))) := by
  intro inputs
  induction inputs with
  | nil => intro _; rfl
  | cons i rest ih =>
      intro h
      have hi := h i (by simp)
      have hr := ih (fun x hx => h x (by simp [hx]))
      unfold needs_rebuild_outer
      rw [needs_rebuild_inner_ok fsys i hi.1 hi.2 outputs ho]
      cases hb : (outputs.any (fun o => !fsys.fexists o ||
          decide (fsys.mtime o < fsys.mtime i))) with
      | true => simp [hb]
      | false => simp [hb, hr]

/-- C3 counterexample: a recipe with no declared inputs and one missing
declared output.  `needs_rebuild` iterates inputs in the outer loop, so it
returns `false` although a declared output does not exist — refuting both
the claimed biconditional and "returns true whenever any declared output is
missing". -/
theorem claim_needs_rebuild_counterexample :
    Recipe.needs_rebuild
        { inputs := [], outputs := ["out"], func := fun g => g }
        { fexists := fun _ => false, mtime := fun _ => 0 } =
      Except.ok false ∧
    FS.fexists { fexists := fun _ => false, mtime := fun _ => 0 } "out" = false :=
  ⟨rfl, rfl⟩

/-- C3 amended: for a recipe with at least one declared input, all paths
nonempty and every declared input existing, `needs_rebuild` completes and
returns true iff some declared output does not exist or some declared
output's mtime is strictly older than some declared input's mtime.  (With
no declared inputs it always returns `false`; with a missing input whose
paired output exists it dies instead of returning.) -/
theorem claim_needs_rebuild_characterization (r : Recipe) (fsys : FS)
    (hne : r.inputs ≠ [])
    (hip : ∀ i ∈ r.inputs, i ≠ "") (hop : ∀ o ∈ r.outputs, o ≠ "")
    (hex : ∀ i ∈ r.inputs, fsys.fexists i = true) :
    r.needs_rebuild fsys = Except.ok true ↔
      ((∃ o ∈ r.outputs, fsys.fexists o = false) ∨
       (∃ i ∈ r.inputs, ∃ o ∈ r.outputs, fsys.mtime o < fsys.mtime i)) := by
  rw [Recipe.needs_rebuild,
    needs_rebuild_outer_ok fsys r.outputs hop r.inputs
      (fun i hi => ⟨hip i hi, hex i hi⟩)]
  simp only [Except.ok.injEq, List.any_eq_true, Bool.or_eq_true,
    Bool.not_eq_true', decide_eq_true_eq]
  constructor
  · rintro ⟨i, hi, o, hoo, hmiss | hlt⟩
    · exact Or.inl ⟨o, hoo, hmiss⟩
    · exact Or.inr ⟨i, hi, o, hoo, hlt⟩
  · rintro (⟨o, hoo, hmiss⟩ | ⟨i, hi, o, hoo, hlt⟩)
    · rcases List.exists_mem_of_ne_nil r.inputs hne with ⟨i, hi⟩
      exact ⟨i, hi, o, hoo, Or.inl hmiss⟩
    · exact ⟨i, hi, o, hoo, Or.inr hlt⟩

theorem claim_needs_rebuild_characterization_witness :
    (Recipe.needs_rebuild
        { inputs := ["in"], outputs := ["out"], func := fun g => g }
        { fexists := fun p => decide (p = "in" ∨ p = "out"),
          mtime := fun p => if p = "in" then 5 else 3 } =
      Except.ok true ↔
      ((∃ o ∈ ["out"],
          FS.fexists { fexists := fun p => decide (p = "in" ∨ p = "out"),
                       mtime := fun p => if p = "in" then 5 else 3 } o = false) ∨
       (∃ i ∈ ["in"], ∃ o ∈ ["out"],
          FS.mtime { fexists := fun p => decide (p = "in" ∨ p = "out"),
                     mtime := fun p => if p = "in" then 5 else 3 } o <
          FS.mtime { fexists := fun p => decide (p = "in" ∨ p = "out"),
                     mtime := fun p => if p = "in" then 5 else 3 } i))) :=
  claim_needs_rebuild_characterization
    { inputs := ["in"], outputs := ["out"], func := fun g => g }
    { fexists := fun p => decide (p = "in" ∨ p = "out"),
      mtime := fun p => if p = "in" then 5 else 3 }
    (by simp) (by simp) (by simp) (by simp)

/-- Lemma: `build` with all inputs present and no rebuild needed is a no-op:
the build function is not invoked. -/
theorem build_of_not_needed (r : Recipe) (fsys : FS)
    (hex : ∀ p ∈ r.inputs, fsys.fexists p = true)
    (hnr : r.needs_rebuild fsys = Except.ok false) :
    r.build fsys = Except.ok (fsys, false) := by
  unfold Recipe.build
  rw [List.all_eq_true.mpr hex]
  simp [hnr]

/-- Lemma: `build` with all inputs present, a needed rebuild, and a build function
that produces every declared output invokes the function once. -/
theorem build_of_needed (r : Recipe) (fsys : FS)
    (hex : ∀ p ∈ r.inputs, fsys.fexists p = true)
    (hnr : r.needs_rebuild fsys = Except.ok true)
    (hout : ∀ o ∈ r.outputs, (r.func fsys).fexists o = true) :
    r.build fsys = Except.ok (r.func fsys, true) := by
  unfold Recipe.build
  rw [List.all_eq_true.mpr hex]
  simp [hnr, List.all_eq_true.mpr hout]

/-- C4 counterexample: a recipe whose inputs exist and which is already up
to date.  Both of two consecutive `build` calls return without invoking the
build function (ghost flag `false`), so calling `build()` twice invokes the
build function zero times, not exactly once. -/
theorem claim_build_idempotence_counterexample :
    Recipe.build
        { inputs := ["in"], outputs := ["out"], func := fun g => g }
        { fexists := fun p => decide (p = "in" ∨ p = "out"),
          mtime := fun p => if p = "out" then 1 else 0 } =
      Except.ok
        ({ fexists := fun p => decide (p = "in" ∨ p = "out"),
           mtime := fun p => if p = "out" then 1 else 0 }, false) ∧
    Recipe.needs_rebuild
        { inputs := ["in"], outputs := ["out"], func := fun g => g }
        { fexists := fun p => decide (p = "in" ∨ p = "out"),
          mtime := fun p => if p = "out" then 1 else 0 } =
      Except.ok false :=
  ⟨rfl, rfl⟩

/-- C4 amended: for a recipe with nonempty declared paths whose inputs all
exist, whose build function leaves every input's existence and mtime
unchanged and makes every declared output exist with an mtime at least as
new as every input's: if `needs_rebuild` is false then a completed `build`
invoked no build function and changed nothing, and after any completed
`build` a second `build` is a no-op; the build function thus runs at most
once over the two calls, and exactly once precisely when the first call
found a rebuild necessary. -/
theorem claim_build_idempotent_amended (r : Recipe) (fsys fs1 : FS) (b1 : Bool)
    (hip : ∀ p ∈ r.inputs, p ≠ "") (hop : ∀ p ∈ r.outputs, p ≠ "")
    (hex : ∀ p ∈ r.inputs, fsys.fexists p = true)
    (hfin : ∀ g : FS, ∀ p ∈ r.inputs,
        (r.func g).fexists p = g.fexists p ∧ (r.func g).mtime p = g.mtime p)
    (hfout : ∀ g : FS, ∀ o ∈ r.outputs,
        (r.func g).fexists o = true ∧
        ∀ p ∈ r.inputs, (r.func g).mtime p ≤ (r.func g).mtime o)
    (h1 : r.build fsys = Except.ok (fs1, b1)) :
    r.build fs1 = Except.ok (fs1, false) ∧
    (r.needs_rebuild fsys = Except.ok false → b1 = false ∧ fs1 = fsys) ∧
    (r.needs_rebuild fsys = Except.ok true → b1 = true) := by
  have hnrEq := needs_rebuild_outer_ok fsys r.outputs hop r.inputs
    (fun i hi => ⟨hip i hi, hex i hi⟩)
  rw [show needs_rebuild_outer fsys r.outputs r.inputs = r.needs_rebuild fsys
    from rfl] at hnrEq
  cases hF : (r.inputs.any (fun i => r.outputs.any (fun o =>
      !fsys.fexists o || decide (fsys.mtime o < fsys.mtime i)))) with
  | false =>
      rw [hF] at hnrEq
      have hb := build_of_not_needed r fsys hex hnrEq
      rw [h1] at hb
      injection hb with hb
      obtain ⟨hfs, hbb⟩ : fs1 = fsys ∧ b1 = false := by
        constructor
        · exact congrArg Prod.fst hb
        · exact congrArg Prod.snd hb
      subst hfs
      subst hbb
      refine ⟨build_of_not_needed r fs1 hex hnrEq, fun _ => ⟨rfl, rfl⟩, fun hc => ?_⟩
      rw [hnrEq] at hc
      simp at hc
  | true =>
      rw [hF] at hnrEq
      have hb := build_of_needed r fsys hex hnrEq
        (fun o ho => (hfout fsys o ho).1)
      rw [h1] at hb
      injection hb with hb
      obtain ⟨hfs, hbb⟩ : fs1 = r.func fsys ∧ b1 = true := by
        constructor
        · exact congrArg Prod.fst hb
        · exact congrArg Prod.snd hb
      subst hbb
      have hex1 : ∀ p ∈ r.inputs, fs1.fexists p = true := by
        intro p hp
        rw [hfs, (hfin fsys p hp).1]
        exact hex p hp
      have hnr1 : r.needs_rebuild fs1 = Except.ok false := by
        have := needs_rebuild_outer_ok fs1 r.outputs hop r.inputs
          (fun i hi => ⟨hip i hi, hex1 i hi⟩)
        rw [show needs_rebuild_outer fs1 r.outputs r.inputs =
          r.needs_rebuild fs1 from rfl] at this
        rw [this]
        congr 1
        rw [List.any_eq_false]
        intro i hi
        rw [Bool.not_eq_true, List.any_eq_false]
        intro o ho
        have h1' : fs1.fexists o = true := by
          rw [hfs]; exact (hfout fsys o ho).1
        have h2' : fs1.mtime i ≤ fs1.mtime o := by
          rw [hfs]; exact (hfout fsys o ho).2 i hi
        simp only [h1', Bool.not_true, Bool.false_or, Bool.not_eq_true,
          decide_eq_false_iff_not]
        exact Nat.not_lt.mpr h2'
      refine ⟨build_of_not_needed r fs1 hex1 hnr1, fun hc => ?_, fun _ => rfl⟩
      rw [hnrEq] at hc
      simp at hc

/-- Membership in a singleton list, by cases on the `Mem` derivation. -/
theorem mem_single {α : Type} {a b : α} (h : a ∈ [b]) : a = b := by
  cases h with
  | head => rfl
  | tail _ h2 => cases h2

theorem claim_build_idempotent_amended_witness :
    c4w_r.build (c4w_r.func c4w_fs) = Except.ok (c4w_r.func c4w_fs, false) ∧
    (c4w_r.needs_rebuild c4w_fs = Except.ok false →
      true = false ∧ c4w_r.func c4w_fs = c4w_fs) ∧
    (c4w_r.needs_rebuild c4w_fs = Except.ok true → true = true) :=
  claim_build_idempotent_amended c4w_r c4w_fs (c4w_r.func c4w_fs) true
    (by intro p hp; rw [mem_single hp]; decide)
    (by intro p hp; rw [mem_single hp]; decide)
    (by intro p hp; rw [mem_single hp]; rfl)
    (by
      intro g p hp
      rw [mem_single hp]
      constructor
      · show (if ("in" : String) = "out" then true else g.fexists "in") =
          g.fexists "in"
        rw [if_neg (by decide)]
      · show (if ("in" : String) = "out" then g.mtime "in" + 1 else g.mtime "in") =
          g.mtime "in"
        rw [if_neg (by decide)])
    (by
      intro g o ho
      rw [mem_single ho]
      constructor
      · show (if ("out" : String) = "out" then true else g.fexists "out") = true
        rw [if_pos rfl]
      · intro p hp
        rw [mem_single hp]
        show (if ("in" : String) = "out" then g.mtime "in" + 1 else g.mtime "in") ≤
          (if ("out" : String) = "out" then g.mtime "in" + 1 else g.mtime "out")
        rw [if_neg (by decide), if_pos rfl]
        exact Nat.le_succ _)
    rfl

/-! ### Scheduler lemmas -/

/-- A poll that reports not-done leaves the future unchanged, and the
future was not done. -/
theorem pollFut_false (env : Nat → Nat) (oracle : Nat → Bool) (tick idx : Nat)
    (fut : CmdFuture) (h : (pollFut env oracle tick idx fut).2 = false) :
    (pollFut env oracle tick idx fut).1 = fut ∧ fut.done = false := by
  unfold pollFut at h ⊢
  by_cases hd : fut.done = true
  · simp [hd] at h
  · rw [Bool.not_eq_true] at hd
    by_cases ho : oracle tick = true
    · simp [hd, ho] at h
    · rw [Bool.not_eq_true] at ho
      simp [hd, ho]

/-- A poll that reports done yields a done future whose exit code is the
environment's answer, unless the future was already done, in which case it
is returned unchanged. -/
theorem pollFut_true (env : Nat → Nat) (oracle : Nat → Bool) (tick idx : Nat)
    (fut : CmdFuture) (h : (pollFut env oracle tick idx fut).2 = true) :
    (pollFut env oracle tick idx fut).1.done = true ∧
    ((pollFut env oracle tick idx fut).1.exit_code = ((env idx : Nat) : Int) ∨
     ((pollFut env oracle tick idx fut).1 = fut ∧ fut.done = true)) := by
  unfold pollFut at h ⊢
  by_cases hd : fut.done = true
  · simp [hd]
  · rw [Bool.not_eq_true] at hd
    by_cases ho : oracle tick = true
    · simp [hd, ho]
    · rw [Bool.not_eq_true] at ho
      simp [hd, ho] at h

/-- Lemma: `set_exit_code` never changes the length of the exit-code list. -/
theorem set_exit_code_length (ec : List Int) (s : CmdRunnerSlot) :
    (set_exit_code ec s).length = ec.length := by
  unfold set_exit_code
  split
  · rfl
  · exact List.length_set ec _ _

/-- Lemma: `set_exit_code` leaves every position other than the slot's submission
index unchanged. -/
theorem set_exit_code_getq (ec : List Int) (s : CmdRunnerSlot) (j : Nat)
    (h : s.index ≠ (j : Int)) : (set_exit_code ec s)[j]? = ec[j]? := by
  unfold set_exit_code
  split
  · rfl
  · rename_i hneg
    apply List.getElem?_set_ne
    intro he
    apply h
    rw [← Int.toNat_of_nonneg (Int.not_lt.mp hneg), he]

/-- Lemma: `set_exit_code` on an occupied slot stores the slot's exit code at its
submission index. -/
theorem set_exit_code_getq_self (ec : List Int) (s : CmdRunnerSlot) (j : Nat)
    (hidx : s.index = (j : Int)) (hlen : j < ec.length) :
    (set_exit_code ec s)[j]? = some s.fut.exit_code := by
  unfold set_exit_code
  rw [hidx, if_neg (Int.not_ofNat_neg j)]
  have : ((j : Int)).toNat = j := rfl
  rw [this]
  exact List.getElem?_set_eq hlen

/-- Lemma: `SlotOk` is monotone in the cursor. -/
theorem SlotOk.mono (env : Nat → Nat) {c c' : Nat} (h : c ≤ c')
    (s : CmdRunnerSlot) (hs : SlotOk env c s) : SlotOk env c' s := by
  intro hneg
  exact ⟨Nat.lt_of_lt_of_le (hs hneg).1 h, (hs hneg).2⟩

/-- Lemma: `popReady` when unsubmitted commands remain: record, then dispatch. -/
theorem popReady_pos (N : Nat) (acc : PopAcc) (slot : CmdRunnerSlot)
    (h : acc.cursor < N) :
    popReady N acc slot =
      ({ acc with cursor := acc.cursor + 1,
                  exit_codes := set_exit_code acc.exit_codes slot,
                  dispatched := acc.dispatched ++ [acc.cursor],
                  did_work := true },
       { fut := freshFut, index := (acc.cursor : Int) }) := by
  unfold popReady
  rw [if_pos h]

/-- Lemma: `popReady` when every command is submitted: record only. -/
theorem popReady_neg (N : Nat) (acc : PopAcc) (slot : CmdRunnerSlot)
    (h : ¬acc.cursor < N) :
    popReady N acc slot =
      ({ acc with exit_codes := set_exit_code acc.exit_codes slot }, slot) := by
  unfold popReady
  rw [if_neg h]

/-- Invariant preservation for `popReady`.  The recording hypothesis
describes the exit-code list after `set_exit_code`, with live-slot
witnesses drawn only from the surrounding slots. -/
theorem popReady_inv (N : Nat) (env : Nat → Nat) (acc : PopAcc)
    (slot : CmdRunnerSlot) (ctx1 ctx2 : List CmdRunnerSlot)
    (hcle : acc.cursor ≤ N)
    (heclen : acc.exit_codes.length = N)
    (hdisp : acc.dispatched = List.range acc.cursor)
    (hctx : ∀ s ∈ ctx1 ++ ctx2, SlotOk env acc.cursor s)
    (hmid : SlotOk env acc.cursor slot)
    (hrec : ∀ i, i < acc.cursor →
      (set_exit_code acc.exit_codes slot)[i]? = some ((env i : Nat) : Int) ∨
      ∃ s ∈ ctx1 ++ ctx2, s.index = (i : Int) ∧ s.fut.done = false) :
    Inv N env (popReady N acc slot).1.cursor (popReady N acc slot).1.exit_codes
      (popReady N acc slot).1.dispatched
      (ctx1 ++ (popReady N acc slot).2 :: ctx2) ∧
    acc.cursor ≤ (popReady N acc slot).1.cursor := by
  by_cases hw : acc.cursor < N
  · rw [popReady_pos N acc slot hw]
    refine ⟨⟨hw, ?_, ?_, ?_, ?_⟩, Nat.le_succ _⟩
    · rw [set_exit_code_length]; exact heclen
    · rw [hdisp, List.range_succ]
    · intro s hs
      rcases List.mem_append.mp hs with h | h
      · exact SlotOk.mono env (Nat.le_succ _) s
          (hctx s (List.mem_append.mpr (Or.inl h)))
      · rcases List.mem_cons.mp h with h | h
        · subst h
          intro _
          refine ⟨Nat.lt_succ_self _, fun habs => ?_⟩
          exact absurd habs (by simp [freshFut])
        · exact SlotOk.mono env (Nat.le_succ _) s
            (hctx s (List.mem_append.mpr (Or.inr h)))
    · intro i hi
      rcases Nat.lt_succ_iff_lt_or_eq.mp hi with hi | hi
      · rcases hrec i hi with h | ⟨s, hs, hidx, hdone⟩
        · exact Or.inl h
        · refine Or.inr ⟨s, ?_, hidx, hdone⟩
          rcases List.mem_append.mp hs with h | h
          · exact List.mem_append.mpr (Or.inl h)
          · exact List.mem_append.mpr (Or.inr (List.mem_cons_of_mem _ h))
      · subst hi
        refine Or.inr ⟨{ fut := freshFut, index := (acc.cursor : Int) }, ?_, rfl, rfl⟩
        exact List.mem_append.mpr (Or.inr (List.mem_cons_self _ _))
  · rw [popReady_neg N acc slot hw]
    refine ⟨⟨hcle, ?_, hdisp, ?_, ?_⟩, Nat.le_refl _⟩
    · rw [set_exit_code_length]; exact heclen
    · intro s hs
      rcases List.mem_append.mp hs with h | h
      · exact hctx s (List.mem_append.mpr (Or.inl h))
      · rcases List.mem_cons.mp h with h | h
        · subst h; exact hmid
        · exact hctx s (List.mem_append.mpr (Or.inr h))
    · intro i hi
      rcases hrec i hi with h | ⟨s, hs, hidx, hdone⟩
      · exact Or.inl h
      · refine Or.inr ⟨s, ?_, hidx, hdone⟩
        rcases List.mem_append.mp hs with h | h
        · exact List.mem_append.mpr (Or.inl h)
        · exact List.mem_append.mpr (Or.inr (List.mem_cons_of_mem _ h))

/-- Invariant preservation for a single `populate_slots` iteration. -/
theorem popSlot_inv (N : Nat) (env : Nat → Nat) (oracle : Nat → Bool)
    (acc : PopAcc) (slot : CmdRunnerSlot) (ctx1 ctx2 : List CmdRunnerSlot)
    (hInv : Inv N env acc.cursor acc.exit_codes acc.dispatched
      (ctx1 ++ slot :: ctx2)) :
    Inv N env (popSlot N env oracle acc slot).1.cursor
      (popSlot N env oracle acc slot).1.exit_codes
      (popSlot N env oracle acc slot).1.dispatched
      (ctx1 ++ (popSlot N env oracle acc slot).2 :: ctx2) ∧
    acc.cursor ≤ (popSlot N env oracle acc slot).1.cursor := by
  obtain ⟨hcle, heclen, hdisp, hsok, hrec⟩ := hInv
  have hctx : ∀ s ∈ ctx1 ++ ctx2, SlotOk env acc.cursor s := by
    intro s hs
    apply hsok
    rcases List.mem_append.mp hs with h | h
    · exact List.mem_append.mpr (Or.inl h)
    · exact List.mem_append.mpr (Or.inr (List.mem_cons_of_mem _ h))
  have hmid : SlotOk env acc.cursor slot :=
    hsok slot (List.mem_append.mpr (Or.inr (List.mem_cons_self _ _)))
  unfold popSlot
  by_cases hneg : slot.index < 0
  · rw [if_pos hneg]
    have hsetid : set_exit_code acc.exit_codes slot = acc.exit_codes := by
      unfold set_exit_code
      rw [if_pos hneg]
    apply popReady_inv N env acc slot ctx1 ctx2 hcle heclen hdisp hctx hmid
    intro i hi
    rw [hsetid]
    rcases hrec i hi with h | ⟨s, hs, hidx, hdone⟩
    · exact Or.inl h
    · rcases List.mem_append.mp hs with h | h
      · exact Or.inr ⟨s, List.mem_append.mpr (Or.inl h), hidx, hdone⟩
      · rcases List.mem_cons.mp h with h | h
        · exfalso
          subst h
          rw [hidx] at hneg
          exact Int.not_ofNat_neg i hneg
        · exact Or.inr ⟨s, List.mem_append.mpr (Or.inr h), hidx, hdone⟩
  · rw [if_neg hneg]
    by_cases hpd : (pollFut env oracle acc.tick slot.index.toNat slot.fut).2 = true
    · rw [if_pos hpd]
      obtain ⟨hdone', hcode⟩ :=
        pollFut_true env oracle acc.tick slot.index.toNat slot.fut hpd
      have hexit :
          (pollFut env oracle acc.tick slot.index.toNat slot.fut).1.exit_code =
            ((env slot.index.toNat : Nat) : Int) := by
        rcases hcode with h | ⟨heq, hfd⟩
        · exact h
        · rw [heq]
          exact (hmid hneg).2 hfd
      have hmid' : SlotOk env acc.cursor
          { slot with fut := (pollFut env oracle acc.tick slot.index.toNat slot.fut).1 } := by
        intro _
        exact ⟨(hmid hneg).1, fun _ => hexit⟩
      apply popReady_inv N env { acc with tick := acc.tick + 1 } _ ctx1 ctx2
        hcle heclen hdisp hctx hmid'
      intro i hi
      have hi' : i < acc.cursor := hi
      dsimp only
      by_cases hii : slot.index = (i : Int)
      · refine Or.inl ?_
        rw [set_exit_code_getq_self acc.exit_codes
          { fut := (pollFut env oracle acc.tick slot.index.toNat slot.fut).1,
            index := slot.index } i hii
          (by rw [heclen]; exact Nat.lt_of_lt_of_le hi' hcle)]
        have hto : slot.index.toNat = i := by rw [hii]; rfl
        dsimp only
        rw [hexit, hto]
      · rcases hrec i hi' with h | ⟨s, hs, hidx, hdone⟩
        · refine Or.inl ?_
          rw [set_exit_code_getq acc.exit_codes
            { fut := (pollFut env oracle acc.tick slot.index.toNat slot.fut).1,
              index := slot.index } i hii]
          exact h
        · rcases List.mem_append.mp hs with h | h
          · exact Or.inr ⟨s, List.mem_append.mpr (Or.inl h), hidx, hdone⟩
          · rcases List.mem_cons.mp h with h | h
            · exfalso
              subst h
              exact hii hidx
            · exact Or.inr ⟨s, List.mem_append.mpr (Or.inr h), hidx, hdone⟩
    · rw [if_neg hpd]
      rw [Bool.not_eq_true] at hpd
      obtain ⟨hsame, _⟩ :=
        pollFut_false env oracle acc.tick slot.index.toNat slot.fut hpd
      have hslot :
          { slot with fut := (pollFut env oracle acc.tick slot.index.toNat slot.fut).1 } =
            slot := by
        rw [hsame]
      rw [hslot]
      exact ⟨⟨hcle, heclen, hdisp, hsok, hrec⟩, Nat.le_refl _⟩

/-- Invariant preservation for a full `populate_slots` pass. -/
theorem popAux_inv (N : Nat) (env : Nat → Nat) (oracle : Nat → Bool) :
    ∀ (slots ctx : List CmdRunnerSlot) (acc : PopAcc),
      Inv N env acc.cursor acc.exit_codes acc.dispatched (ctx ++ slots) →
      Inv N env (popAux N env oracle ctx acc slots).1.cursor
        (popAux N env oracle ctx acc slots).1.exit_codes
        (popAux N env oracle ctx acc slots).1.dispatched
        (popAux N env oracle ctx acc slots).2.1 ∧
      acc.cursor ≤ (popAux N env oracle ctx acc slots).1.cursor := by
  intro slots
  induction slots with
  | nil =>
      intro ctx acc h
      rw [List.append_nil] at h
      simp only [popAux]
      exact ⟨h, Nat.le_refl _⟩
  | cons slot rest ih =>
      intro ctx acc h
      simp only [popAux]
      have h1 := popSlot_inv N env oracle acc slot ctx rest h
      have h2 := ih (ctx ++ [(popSlot N env oracle acc slot).2])
        (popSlot N env oracle acc slot).1
        (by rw [List.append_assoc]; exact h1.1)
      exact ⟨h2.1, Nat.le_trans h1.2 h2.2⟩

/-- A `populate_slots` pass preserves the slot-array length, and every
snapshot taken during the pass has that same length. -/
theorem popAux_len (N : Nat) (env : Nat → Nat) (oracle : Nat → Bool) :
    ∀ (slots ctx : List CmdRunnerSlot) (acc : PopAcc),
      (popAux N env oracle ctx acc slots).2.1.length =
        ctx.length + slots.length ∧
      ∀ snap ∈ (popAux N env oracle ctx acc slots).2.2,
        snap.length = ctx.length + slots.length := by
  intro slots
  induction slots with
  | nil =>
      intro ctx acc
      simp [popAux]
  | cons slot rest ih =>
      intro ctx acc
      simp only [popAux]
      have hrest := ih (ctx ++ [(popSlot N env oracle acc slot).2])
        (popSlot N env oracle acc slot).1
      constructor
      · rw [hrest.1]
        simp only [List.length_append, List.length_cons, List.length_nil]
        omega
      · intro snap hsnap
        rcases List.mem_cons.mp hsnap with hh | hh
        · subst hh
          simp only [List.length_append, List.length_cons, List.length_nil]
        · rw [hrest.2 snap hh]
          simp only [List.length_append, List.length_cons, List.length_nil]
          omega

/-- Lemma: `populate_slots` preserves the invariant, never moves the cursor
backwards, and keeps the queue length. -/
theorem populate_slots_inv (env : Nat → Nat) (oracle : Nat → Bool)
    (st : CmdRunner) (h : StInv env st) :
    StInv env (st.populate_slots env oracle).1 ∧
    st.cursor ≤ (st.populate_slots env oracle).1.cursor ∧
    (st.populate_slots env oracle).1.cmds_len = st.cmds_len := by
  have := popAux_inv st.cmds_len env oracle st.slots []
    { cursor := st.cursor, exit_codes := st.exit_codes, tick := st.tick,
      dispatched := st.dispatched, did_work := false }
    (by simpa using h)
  exact ⟨this.1, this.2, rfl⟩

/-- Lemma: `populate_slots` preserves the slot-array length; its snapshots all
have that length. -/
theorem populate_slots_len (env : Nat → Nat) (oracle : Nat → Bool)
    (st : CmdRunner) :
    (st.populate_slots env oracle).1.slots.length = st.slots.length ∧
    ∀ snap ∈ (st.populate_slots env oracle).2.2,
      snap.length = st.slots.length := by
  have := popAux_len st.cmds_len env oracle st.slots []
    { cursor := st.cursor, exit_codes := st.exit_codes, tick := st.tick,
      dispatched := st.dispatched, did_work := false }
  simpa using this

/-- Invariant preservation for a single `await_slots` iteration. -/
theorem awaitSlot_inv (N : Nat) (env : Nat → Nat) (oracle : Nat → Bool)
    (cursor : Nat) (dispatched : List Nat) (acc : AwaitAcc)
    (slot : CmdRunnerSlot) (ctx1 ctx2 : List CmdRunnerSlot)
    (hInv : Inv N env cursor acc.exit_codes dispatched (ctx1 ++ slot :: ctx2)) :
    Inv N env cursor (awaitSlot env oracle acc slot).1.exit_codes dispatched
      (ctx1 ++ (awaitSlot env oracle acc slot).2 :: ctx2) := by
  obtain ⟨hcle, heclen, hdisp, hsok, hrec⟩ := hInv
  have hmid : SlotOk env cursor slot :=
    hsok slot (List.mem_append.mpr (Or.inr (List.mem_cons_self _ _)))
  unfold awaitSlot
  by_cases hneg : slot.index < 0
  · rw [if_pos hneg]
    exact ⟨hcle, heclen, hdisp, hsok, hrec⟩
  · rw [if_neg hneg]
    dsimp only
    by_cases hpd : (pollFut env oracle acc.tick slot.index.toNat slot.fut).2 = true
    · obtain ⟨hdone', hcode⟩ :=
        pollFut_true env oracle acc.tick slot.index.toNat slot.fut hpd
      have hexit :
          (pollFut env oracle acc.tick slot.index.toNat slot.fut).1.exit_code =
            ((env slot.index.toNat : Nat) : Int) := by
        rcases hcode with h | ⟨heq, hfd⟩
        · exact h
        · rw [heq]
          exact (hmid hneg).2 hfd
      refine ⟨hcle, ?_, hdisp, ?_, ?_⟩
      · rw [if_pos hpd, set_exit_code_length]
        exact heclen
      · intro s hs
        rcases List.mem_append.mp hs with h | h
        · exact hsok s (List.mem_append.mpr (Or.inl h))
        · rcases List.mem_cons.mp h with h | h
          · subst h
            intro _
            exact ⟨(hmid hneg).1, fun _ => hexit⟩
          · exact hsok s
              (List.mem_append.mpr (Or.inr (List.mem_cons_of_mem _ h)))
      · intro i hi
        rw [if_pos hpd]
        by_cases hii : slot.index = (i : Int)
        · refine Or.inl ?_
          rw [set_exit_code_getq_self acc.exit_codes
            { fut := (pollFut env oracle acc.tick slot.index.toNat slot.fut).1,
              index := slot.index } i hii
            (by rw [heclen]; exact Nat.lt_of_lt_of_le hi hcle)]
          have hto : slot.index.toNat = i := by rw [hii]; rfl
          dsimp only
          rw [hexit, hto]
        · rcases hrec i hi with h | ⟨s, hs, hidx, hdone⟩
          · refine Or.inl ?_
            rw [set_exit_code_getq acc.exit_codes
              { fut := (pollFut env oracle acc.tick slot.index.toNat slot.fut).1,
                index := slot.index } i hii]
            exact h
          · rcases List.mem_append.mp hs with h | h
            · exact Or.inr ⟨s, List.mem_append.mpr (Or.inl h), hidx, hdone⟩
            · rcases List.mem_cons.mp h with h | h
              · exfalso
                subst h
                exact hii hidx
              · exact Or.inr ⟨s,
                  List.mem_append.mpr (Or.inr (List.mem_cons_of_mem _ h)),
                  hidx, hdone⟩
    · rw [Bool.not_eq_true] at hpd
      obtain ⟨hsame, _⟩ :=
        pollFut_false env oracle acc.tick slot.index.toNat slot.fut hpd
      have hslot :
          { slot with
            fut := (pollFut env oracle acc.tick slot.index.toNat slot.fut).1 } =
            slot := by
        rw [hsame]
      rw [hpd, hslot]
      exact ⟨hcle, heclen, hdisp, hsok, hrec⟩

/-- Invariant preservation for a full `await_slots` pass. -/
theorem awaitAux_inv (N : Nat) (env : Nat → Nat) (oracle : Nat → Bool)
    (cursor : Nat) (dispatched : List Nat) :
    ∀ (slots ctx : List CmdRunnerSlot) (acc : AwaitAcc),
      Inv N env cursor acc.exit_codes dispatched (ctx ++ slots) →
      Inv N env cursor (awaitAux env oracle ctx acc slots).1.exit_codes
        dispatched (awaitAux env oracle ctx acc slots).2.1 := by
  intro slots
  induction slots with
  | nil =>
      intro ctx acc h
      rw [List.append_nil] at h
      simpa only [awaitAux] using h
  | cons slot rest ih =>
      intro ctx acc h
      simp only [awaitAux]
      have h1 := awaitSlot_inv N env oracle cursor dispatched acc slot ctx rest h
      exact ih (ctx ++ [(awaitSlot env oracle acc slot).2])
        (awaitSlot env oracle acc slot).1
        (by rw [List.append_assoc]; exact h1)

/-- An `await_slots` pass preserves the slot-array length, and every
snapshot taken during the pass has that length. -/
theorem awaitAux_len (env : Nat → Nat) (oracle : Nat → Bool) :
    ∀ (slots ctx : List CmdRunnerSlot) (acc : AwaitAcc),
      (awaitAux env oracle ctx acc slots).2.1.length =
        ctx.length + slots.length ∧
      ∀ snap ∈ (awaitAux env oracle ctx acc slots).2.2,
        snap.length = ctx.length + slots.length := by
  intro slots
  induction slots with
  | nil =>
      intro ctx acc
      simp [awaitAux]
  | cons slot rest ih =>
      intro ctx acc
      simp only [awaitAux]
      have hrest := ih (ctx ++ [(awaitSlot env oracle acc slot).2])
        (awaitSlot env oracle acc slot).1
      constructor
      · rw [hrest.1]
        simp only [List.length_append, List.length_cons, List.length_nil]
        omega
      · intro snap hsnap
        rcases List.mem_cons.mp hsnap with hh | hh
        · subst hh
          simp only [List.length_append, List.length_cons, List.length_nil]
        · rw [hrest.2 snap hh]
          simp only [List.length_append, List.length_cons, List.length_nil]
          omega

/-- Lemma: `all_done` can only survive a pass if it came in true. -/
theorem awaitAux_all_done_mono (env : Nat → Nat) (oracle : Nat → Bool) :
    ∀ (slots ctx : List CmdRunnerSlot) (acc : AwaitAcc),
      (awaitAux env oracle ctx acc slots).1.all_done = true →
      acc.all_done = true := by
  intro slots
  induction slots with
  | nil =>
      intro ctx acc h
      simpa only [awaitAux] using h
  | cons slot rest ih =>
      intro ctx acc h
      simp only [awaitAux] at h
      have h2 := ih (ctx ++ [(awaitSlot env oracle acc slot).2])
        (awaitSlot env oracle acc slot).1 h
      unfold awaitSlot at h2
      by_cases hneg : slot.index < 0
      · rwa [if_pos hneg] at h2
      · rw [if_neg hneg] at h2
        dsimp only at h2
        exact (Bool.and_eq_true _ _).mp h2 |>.1

/-- If a pass ends with `all_done` true, every slot it processed is empty
or holds a done future. -/
theorem awaitAux_all_done_idle (env : Nat → Nat) (oracle : Nat → Bool) :
    ∀ (slots ctx : List CmdRunnerSlot) (acc : AwaitAcc),
      ∃ slots2, (awaitAux env oracle ctx acc slots).2.1 = ctx ++ slots2 ∧
        ((awaitAux env oracle ctx acc slots).1.all_done = true →
          ∀ s ∈ slots2, s.index < 0 ∨ s.fut.done = true) := by
  intro slots
  induction slots with
  | nil =>
      intro ctx acc
      refine ⟨[], by simp [awaitAux], fun _ s hs => absurd hs (List.not_mem_nil s)⟩
  | cons slot rest ih =>
      intro ctx acc
      simp only [awaitAux]
      obtain ⟨rest2, heq, hidle⟩ := ih (ctx ++ [(awaitSlot env oracle acc slot).2])
        (awaitSlot env oracle acc slot).1
      refine ⟨(awaitSlot env oracle acc slot).2 :: rest2, ?_, ?_⟩
      · rw [heq, List.append_assoc]
        rfl
      · intro hall s hs
        rcases List.mem_cons.mp hs with h | h
        · subst h
          have hacc := awaitAux_all_done_mono env oracle rest
            (ctx ++ [(awaitSlot env oracle acc slot).2])
            (awaitSlot env oracle acc slot).1 hall
          unfold awaitSlot at hacc ⊢
          by_cases hneg : slot.index < 0
          · rw [if_pos hneg]
            exact Or.inl hneg
          · rw [if_neg hneg] at hacc ⊢
            dsimp only at hacc ⊢
            have hpd := ((Bool.and_eq_true _ _).mp hacc).2
            exact Or.inr (pollFut_true env oracle acc.tick slot.index.toNat
              slot.fut hpd).1
        · exact hidle hall s h

/-- Lemma: `await_slots` preserves cursor, queue length, dispatch log and the
invariant, and when it returns, every slot is empty or done. -/
theorem await_slots_spec (env : Nat → Nat) (oracle : Nat → Bool) :
    ∀ (fuel : Nat) (st stF : CmdRunner) (snaps : List (List CmdRunnerSlot)),
      CmdRunner.await_slots env oracle fuel st = some (stF, snaps) →
      stF.cursor = st.cursor ∧ stF.cmds_len = st.cmds_len ∧
      stF.dispatched = st.dispatched ∧
      (∀ s ∈ stF.slots, s.index < 0 ∨ s.fut.done = true) ∧
      (StInv env st → StInv env stF) := by
  intro fuel
  induction fuel with
  | zero =>
      intro st stF snaps h
      simp [CmdRunner.await_slots] at h
  | succ fuel ih =>
      intro st stF snaps h
      simp only [CmdRunner.await_slots] at h
      split at h
      · rename_i hall
        rw [Option.some.injEq, Prod.mk.injEq] at h
        obtain ⟨hst, _⟩ := h
        subst hst
        obtain ⟨slots2, heq2, hidle⟩ := awaitAux_all_done_idle env oracle st.slots []
          { exit_codes := st.exit_codes, tick := st.tick, all_done := true }
        refine ⟨rfl, rfl, rfl, ?_, ?_⟩
        · intro s hs
          apply hidle hall s
          rw [heq2] at hs
          simpa using hs
        · intro hInv
          have := awaitAux_inv st.cmds_len env oracle st.cursor st.dispatched
            st.slots []
            { exit_codes := st.exit_codes, tick := st.tick, all_done := true }
            (by simpa using hInv)
          exact this
      · split at h
        · simp at h
        · rename_i stG snapsG hG
          rw [Option.some.injEq, Prod.mk.injEq] at h
          obtain ⟨hst, _⟩ := h
          subst hst
          have hmid := ih _ _ snapsG hG
          have hInvPass : StInv env st → StInv env
              { st with
                exit_codes := (awaitAux env oracle []
                  { exit_codes := st.exit_codes, tick := st.tick,
                    all_done := true } st.slots).1.exit_codes,
                tick := (awaitAux env oracle []
                  { exit_codes := st.exit_codes, tick := st.tick,
                    all_done := true } st.slots).1.tick,
                slots := (awaitAux env oracle []
                  { exit_codes := st.exit_codes, tick := st.tick,
                    all_done := true } st.slots).2.1 } := by
            intro hInv
            exact awaitAux_inv st.cmds_len env oracle st.cursor st.dispatched
              st.slots []
              { exit_codes := st.exit_codes, tick := st.tick, all_done := true }
              (by simpa using hInv)
          exact ⟨hmid.1, hmid.2.1, hmid.2.2.1, hmid.2.2.2.1,
            fun hInv => hmid.2.2.2.2 (hInvPass hInv)⟩

/-- Lemma: `await_slots` preserves the slot-array length; all its snapshots have
that length. -/
theorem await_slots_len (env : Nat → Nat) (oracle : Nat → Bool) :
    ∀ (fuel : Nat) (st stF : CmdRunner) (snaps : List (List CmdRunnerSlot)),
      CmdRunner.await_slots env oracle fuel st = some (stF, snaps) →
      stF.slots.length = st.slots.length ∧
      ∀ snap ∈ snaps, snap.length = st.slots.length := by
  intro fuel
  induction fuel with
  | zero =>
      intro st stF snaps h
      simp [CmdRunner.await_slots] at h
  | succ fuel ih =>
      intro st stF snaps h
      have hlen := awaitAux_len env oracle st.slots []
        { exit_codes := st.exit_codes, tick := st.tick, all_done := true }
      simp only [List.length_nil, Nat.zero_add] at hlen
      simp only [CmdRunner.await_slots] at h
      split at h
      · rw [Option.some.injEq, Prod.mk.injEq] at h
        obtain ⟨hst, hsn⟩ := h
        subst hst
        subst hsn
        exact hlen
      · split at h
        · simp at h
        · rename_i stG snapsG hG
          rw [Option.some.injEq, Prod.mk.injEq] at h
          obtain ⟨hst, hsn⟩ := h
          subst hst
          subst hsn
          have hmid := ih _ _ snapsG hG
          refine ⟨by rw [hmid.1]; exact hlen.1, ?_⟩
          intro snap hsnap
          rcases List.mem_append.mp hsnap with hh | hh
          · exact hlen.2 snap hh
          · rw [hmid.2 snap hh]
            exact hlen.1

/-- The dispatch loop of `run` ends only once every command is submitted,
and preserves the invariant and the queue length. -/
theorem runLoop_spec (env : Nat → Nat) (oracle : Nat → Bool) :
    ∀ (fuel : Nat) (st stF : CmdRunner) (snaps : List (List CmdRunnerSlot)),
      CmdRunner.runLoop env oracle fuel st = some (stF, snaps) →
      stF.cmds_len = st.cmds_len ∧ stF.any_waiting = false ∧
      (StInv env st → StInv env stF) := by
  intro fuel
  induction fuel with
  | zero =>
      intro st stF snaps h
      simp only [CmdRunner.runLoop] at h
      split at h
      · simp at h
      · rename_i hnw
        rw [Option.some.injEq, Prod.mk.injEq] at h
        obtain ⟨hst, _⟩ := h
        subst hst
        exact ⟨rfl, Bool.not_eq_true _ |>.mp hnw, fun hInv => hInv⟩
  | succ fuel ih =>
      intro st stF snaps h
      simp only [CmdRunner.runLoop] at h
      split at h
      · split at h
        · simp at h
        · rename_i stG snapsG hG
          rw [Option.some.injEq, Prod.mk.injEq] at h
          obtain ⟨hst, _⟩ := h
          subst hst
          have hmid := ih _ _ snapsG hG
          refine ⟨?_, hmid.2.1, ?_⟩
          · rw [hmid.1]
            rfl
          · intro hInv
            exact hmid.2.2 ((populate_slots_inv env oracle st hInv).1)
      · rename_i hnw
        rw [Option.some.injEq, Prod.mk.injEq] at h
        obtain ⟨hst, _⟩ := h
        subst hst
        exact ⟨rfl, Bool.not_eq_true _ |>.mp hnw, fun hInv => hInv⟩

/-- The dispatch loop preserves the slot-array length; all its snapshots
have that length. -/
theorem runLoop_len (env : Nat → Nat) (oracle : Nat → Bool) :
    ∀ (fuel : Nat) (st stF : CmdRunner) (snaps : List (List CmdRunnerSlot)),
      CmdRunner.runLoop env oracle fuel st = some (stF, snaps) →
      stF.slots.length = st.slots.length ∧
      ∀ snap ∈ snaps, snap.length = st.slots.length := by
  intro fuel
  induction fuel with
  | zero =>
      intro st stF snaps h
      simp only [CmdRunner.runLoop] at h
      split at h
      · simp at h
      · rw [Option.some.injEq, Prod.mk.injEq] at h
        obtain ⟨hst, hsn⟩ := h
        subst hst
        subst hsn
        exact ⟨rfl, fun snap hsnap => absurd hsnap (List.not_mem_nil snap)⟩
  | succ fuel ih =>
      intro st stF snaps h
      simp only [CmdRunner.runLoop] at h
      split at h
      · split at h
        · simp at h
        · rename_i stG snapsG hG
          rw [Option.some.injEq, Prod.mk.injEq] at h
          obtain ⟨hst, hsn⟩ := h
          subst hst
          subst hsn
          have hpop := populate_slots_len env oracle st
          have hmid := ih _ _ snapsG hG
          refine ⟨by rw [hmid.1]; exact hpop.1, ?_⟩
          intro snap hsnap
          rcases List.mem_append.mp hsnap with hh | hh
          · exact hpop.2 snap hh
          · rw [hmid.2 snap hh]
            exact hpop.1
      · rw [Option.some.injEq, Prod.mk.injEq] at h
        obtain ⟨hst, hsn⟩ := h
        subst hst
        subst hsn
        exact ⟨rfl, fun snap hsnap => absurd hsnap (List.not_mem_nil snap)⟩

/-- Lemma: `std::vector::resize` always yields the requested length. -/
theorem listResize_length (l : List Int) (n : Nat) (v : Int) :
    (listResize l n v).length = n := by
  unfold listResize
  split
  · rename_i h
    rw [List.length_take]
    omega
  · rename_i h
    rw [List.length_append, List.length_replicate]
    omega

/-- The state a fresh `(cmds, count)`-constructed runner reaches right
after `run`'s resize-and-reset prologue satisfies the invariant. -/
theorem init_StInv (env : Nat → Nat) (N P : Nat) (st₀ : CmdRunner)
    (h0 : CmdRunner.mkCmdsCount N P = Except.ok st₀) :
    StInv env { st₀ with
      exit_codes := listResize st₀.exit_codes st₀.cmds_len (-1),
      cursor := 0 } ∧
    st₀.cmds_len = N ∧ st₀.slots.length = P ∧ st₀.exit_codes = [] := by
  unfold CmdRunner.mkCmdsCount at h0
  rw [Except.ok.injEq] at h0
  subst h0
  refine ⟨⟨Nat.zero_le _, ?_, rfl, ?_, ?_⟩, rfl, List.length_replicate _ _, rfl⟩
  · exact listResize_length _ _ _
  · intro s hs
    have hs' := List.eq_of_mem_replicate hs
    subst hs'
    intro hneg
    exact absurd (by decide : ((-1 : Int)) < 0) hneg
  · intro i hi
    exact absurd hi (Nat.not_lt_zero i)

/-- What a completed `run` guarantees: the invariant at the final state, a
fully advanced cursor, idle slots, and the returned Boolean. -/
theorem run_spec (env : Nat → Nat) (oracle : Nat → Bool) (fuel : Nat)
    (st stF : CmdRunner) (b : Bool) (snaps : List (List CmdRunnerSlot))
    (hrun : CmdRunner.run env oracle fuel st = some (stF, b, snaps))
    (hInv1 : StInv env { st with
      exit_codes := listResize st.exit_codes st.cmds_len (-1), cursor := 0 }) :
    StInv env stF ∧ stF.cmds_len = st.cmds_len ∧ stF.cursor = stF.cmds_len ∧
    (∀ s ∈ stF.slots, s.index < 0 ∨ s.fut.done = true) ∧
    b = !stF.any_failed := by
  simp only [CmdRunner.run] at hrun
  split at hrun
  · simp at hrun
  · rename_i st2 snaps1 hL
    split at hrun
    · simp at hrun
    · rename_i st3 snaps2 hA
      rw [Option.some.injEq, Prod.mk.injEq, Prod.mk.injEq] at hrun
      obtain ⟨hst, hb, _⟩ := hrun
      subst hst
      have hpop := populate_slots_inv env oracle
        { st with exit_codes := listResize st.exit_codes st.cmds_len (-1),
                  cursor := 0 } hInv1
      have hL' := runLoop_spec env oracle fuel _ _ snaps1 hL
      have hA' := await_slots_spec env oracle fuel _ _ snaps2 hA
      have hInv2 : StInv env st2 := hL'.2.2 hpop.1
      have hInvF : StInv env st3 := hA'.2.2.2.2 hInv2
      have hcl : st3.cmds_len = st.cmds_len := by
        rw [hA'.2.1, hL'.1, hpop.2.2]
      have hcur : st3.cursor = st3.cmds_len := by
        have hnw : st2.any_waiting = false := hL'.2.1
        unfold CmdRunner.any_waiting at hnw
        have h1 : ¬ st2.cursor < st2.cmds_len := by
          intro hlt
          rw [decide_eq_true hlt] at hnw
          exact Bool.true_eq_false.mp hnw
        have h2 : st2.cursor ≤ st2.cmds_len := hInv2.cursor_le
        rw [hA'.1, hA'.2.1]
        omega
      exact ⟨hInvF, hcl, hcur, hA'.2.2.2.1, hb.symm⟩

/-- A completed `run` preserves the slot-array length and every snapshot
taken at any instant of the run has that length. -/
theorem run_len (env : Nat → Nat) (oracle : Nat → Bool) (fuel : Nat)
    (st stF : CmdRunner) (b : Bool) (snaps : List (List CmdRunnerSlot))
    (hrun : CmdRunner.run env oracle fuel st = some (stF, b, snaps)) :
    stF.slots.length = st.slots.length ∧
    ∀ snap ∈ snaps, snap.length = st.slots.length := by
  simp only [CmdRunner.run] at hrun
  split at hrun
  · simp at hrun
  · rename_i st2 snaps1 hL
    split at hrun
    · simp at hrun
    · rename_i st3 snaps2 hA
      rw [Option.some.injEq, Prod.mk.injEq, Prod.mk.injEq] at hrun
      obtain ⟨hst, _, hsn⟩ := hrun
      subst hst
      subst hsn
      have hpop := populate_slots_len env oracle
        { st with exit_codes := listResize st.exit_codes st.cmds_len (-1),
                  cursor := 0 }
      have hL' := runLoop_len env oracle fuel _ _ snaps1 hL
      have hA' := await_slots_len env oracle fuel _ _ snaps2 hA
      refine ⟨by rw [hA'.1, hL'.1]; exact hpop.1, ?_⟩
      intro snap hsnap
      rcases List.mem_append.mp hsnap with hh | hh
      · rcases List.mem_append.mp hh with hh2 | hh2
        · exact hpop.2 snap hh2
        · rw [hL'.2 snap hh2]
          exact hpop.1
      · rw [hA'.2 snap hh, hL'.1]
        exact hpop.1

/-- After a completed `run` of a fresh `(cmds, count)`-constructed runner,
the exit code recorded at every submission index is that command's eventual
exit status. -/
theorem run_recorded (N P fuel : Nat) (env : Nat → Nat) (oracle : Nat → Bool)
    (st₀ stF : CmdRunner) (b : Bool) (snaps : List (List CmdRunnerSlot))
    (h0 : CmdRunner.mkCmdsCount N P = Except.ok st₀)
    (hrun : CmdRunner.run env oracle fuel st₀ = some (stF, b, snaps)) :
    ∀ i, i < N → stF.exit_codes[i]? = some ((env i : Nat) : Int) := by
  obtain ⟨hInv1, hcl, _, _⟩ := init_StInv env N P st₀ h0
  obtain ⟨hInvF, hclF, hcur, hidle, _⟩ :=
    run_spec env oracle fuel st₀ stF b snaps hrun hInv1
  intro i hi
  have hi' : i < stF.cursor := by
    rw [hcur, hclF, hcl]
    exact hi
  rcases hInvF.recorded i hi' with h | ⟨s, hs, hidx, hdone⟩
  · exact h
  · exfalso
    rcases hidle s hs with h | h
    · rw [hidx] at h
      exact Int.not_ofNat_neg i h
    · rw [hdone] at h
      exact Bool.false_ne_true h

/-- Lemma: `run` returns exactly the negation of `any_failed` on the final
exit-code list. -/
theorem run_returns_bool (env : Nat → Nat) (oracle : Nat → Bool) (fuel : Nat)
    (st stF : CmdRunner) (b : Bool) (snaps : List (List CmdRunnerSlot))
    (hrun : CmdRunner.run env oracle fuel st = some (stF, b, snaps)) :
    b = !stF.any_failed := by
  simp only [CmdRunner.run] at hrun
  split at hrun
  · simp at hrun
  · split at hrun
    · simp at hrun
    · rw [Option.some.injEq, Prod.mk.injEq, Prod.mk.injEq] at hrun
      obtain ⟨hst, hb, _⟩ := hrun
      subst hst
      exact hb.symm

/-- C1: after a completed `run` of `N` submitted commands under concurrency
limit `P ≥ 1`, the exit-code list has exactly `N` entries, each entry is
the corresponding command's real exit status (never the `-1` sentinel),
each command was dispatched exactly once (the dispatch log is exactly
`[0, …, N-1]`), and at every instant of the run — every slot-array snapshot
taken after each single slot operation — at most `P` children are live (at
most one active handle per slot of the fixed `P`-sized slot array). -/
theorem claim_runner_run_postconditions (N P fuel : Nat) (env : Nat → Nat)
    (oracle : Nat → Bool) (st₀ stF : CmdRunner) (b : Bool)
    (snaps : List (List CmdRunnerSlot)) (hP : 1 ≤ P)
    (h0 : CmdRunner.mkCmdsCount N P = Except.ok st₀)
    (hrun : CmdRunner.run env oracle fuel st₀ = some (stF, b, snaps)) :
    stF.exit_codes.length = N ∧
    (∀ i, i < N → stF.exit_codes[i]? = some ((env i : Nat) : Int) ∧
      ((env i : Nat) : Int) ≠ -1) ∧
    stF.dispatched = List.range N ∧
    (∀ snap ∈ snaps, liveCount snap ≤ P) := by
  obtain ⟨hInv1, hcl, hsl, _⟩ := init_StInv env N P st₀ h0
  obtain ⟨hInvF, hclF, hcur, hidle, _⟩ :=
    run_spec env oracle fuel st₀ stF b snaps hrun hInv1
  have hNF : stF.cmds_len = N := by rw [hclF, hcl]
  refine ⟨?_, ?_, ?_, ?_⟩
  · rw [hInvF.ec_len, hNF]
  · intro i hi
    refine ⟨run_recorded N P fuel env oracle st₀ stF b snaps h0 hrun i hi, ?_⟩
    intro habs
    have := Int.natCast_nonneg (env i)
    omega
  · rw [hInvF.disp, hcur, hNF]
  · intro snap hsnap
    have hlen := (run_len env oracle fuel st₀ stF b snaps hrun).2 snap hsnap
    calc liveCount snap ≤ snap.length := List.length_filter_le _ _
    _ = P := by rw [hlen, hsl]

theorem claim_runner_run_postconditions_witness :
    w_stF.exit_codes.length = 2 ∧
    (∀ i, i < 2 → w_stF.exit_codes[i]? = some ((wEnv i : Nat) : Int) ∧
      ((wEnv i : Nat) : Int) ≠ -1) ∧
    w_stF.dispatched = List.range 2 ∧
    (∀ snap ∈ w_snaps, liveCount snap ≤ 1) :=
  claim_runner_run_postconditions 2 1 6 wEnv wOracle w_st0 w_stF false w_snaps
    (by decide) rfl rfl

/-- C2: after a completed `run`, `exit_codes[i]` is the exit status of
`cmds[i]` for every submission index `i`, independent of the order in
which commands actually finished (the environment `env` fixes each
command's eventual exit status; the poll oracle ranges over all possible
completion interleavings). -/
theorem claim_exit_codes_by_submission_index (N P fuel : Nat)
    (env : Nat → Nat) (oracle : Nat → Bool) (st₀ stF : CmdRunner) (b : Bool)
    (snaps : List (List CmdRunnerSlot))
    (h0 : CmdRunner.mkCmdsCount N P = Except.ok st₀)
    (hrun : CmdRunner.run env oracle fuel st₀ = some (stF, b, snaps)) :
    ∀ i, i < N → stF.exit_codes[i]? = some ((env i : Nat) : Int) :=
  run_recorded N P fuel env oracle st₀ stF b snaps h0 hrun

theorem claim_exit_codes_by_submission_index_witness :
    w_stF.exit_codes[0]? = some ((wEnv 0 : Nat) : Int) ∧
    w_stF.exit_codes[1]? = some ((wEnv 1 : Nat) : Int) :=
  ⟨claim_exit_codes_by_submission_index 2 1 6 wEnv wOracle w_st0 w_stF false
      w_snaps rfl rfl 0 (by decide),
   claim_exit_codes_by_submission_index 2 1 6 wEnv wOracle w_st0 w_stF false
      w_snaps rfl rfl 1 (by decide)⟩

/-- C7: `any_failed` is true iff some recorded exit code is non-zero,
`all_succeded` is its exact negation, and a completed `run` returns true
iff no recorded exit code is non-zero. -/
theorem claim_any_failed_iff (st : CmdRunner) (env : Nat → Nat)
    (oracle : Nat → Bool) (fuel : Nat) (st₀ stF : CmdRunner) (b : Bool)
    (snaps : List (List CmdRunnerSlot))
    (hrun : CmdRunner.run env oracle fuel st₀ = some (stF, b, snaps)) :
    (st.any_failed = true ↔ ∃ c ∈ st.exit_codes, c ≠ 0) ∧
    (st.all_succeded = !st.any_failed) ∧
    (b = true ↔ ∀ c ∈ stF.exit_codes, c = 0) := by
  refine ⟨?_, rfl, ?_⟩
  · unfold CmdRunner.any_failed
    rw [List.any_eq_true]
    simp only [bne_iff_ne, ne_eq]
  · rw [run_returns_bool env oracle fuel st₀ stF b snaps hrun]
    unfold CmdRunner.any_failed
    simp only [Bool.not_eq_true', List.any_eq_false, bne_iff_ne, ne_eq, not_not]

theorem claim_any_failed_iff_witness :
    (w_stF.any_failed = true ↔ ∃ c ∈ w_stF.exit_codes, c ≠ 0) ∧
    (w_stF.all_succeded = !w_stF.any_failed) ∧
    (false = true ↔ ∀ c ∈ w_stF.exit_codes, c = 0) :=
  claim_any_failed_iff w_stF wEnv wOracle 6 w_st0 w_stF false w_snaps rfl

end Bob
